import Mathlib

/-!
Shallow embedding of the lottery-history repository:

* `update_jackpots.py` — `parse_draw_rows` extracts `{date, numbers, jackpot}`
  records from the rows of a "Past Winning Numbers" page, and `main` combines
  the per-game lists into a snapshot object.
* `api.py` — `get_lottery` serves the snapshot with optional `game`/`date`
  filtering.

HTML is abstracted to the exact shape the parser consumes: a document is a
list of table rows, each row a list of cells, each cell exposing the text of
its first `<a>` element (as produced by `get_text(" ", strip=True)`), the
stripped texts of its `resultBall` spans in document order, and the stripped
text of its first `<strong>` element.  Strings are modelled over their char
lists; Python's Unicode-aware predicates (`str.isdigit`, `str.split`,
`str.strip`, the regex class `\d`) are modelled by the corresponding ASCII
predicates of `Char`, which agree with Python on the ASCII markup the pages
contain.
-/

namespace Lottery

/-- A calendar date as produced by Python's `datetime.date`. -/
structure PyDate where
  year : Nat
  month : Nat
  day : Nat
  deriving DecidableEq, Repr

/-- The cutoff `CUTOFF_DATE = date(2025, 1, 1)` from `update_jackpots.py`. -/
def CUTOFF_DATE : PyDate := ⟨2025, 1, 1⟩

/-- Python `date` comparison `<` (lexicographic on year, month, day). -/
def dateLt (a b : PyDate) : Bool :=
  a.year < b.year ||
    (a.year == b.year &&
      (a.month < b.month || (a.month == b.month && a.day < b.day)))

/-- Accumulator for `splitWs`: builds tokens of consecutive non-whitespace
characters, dropping whitespace runs, like Python's `str.split()`. -/
def splitWsAux (cur : List Char) : List Char → List (List Char)
  | [] => if cur.isEmpty then [] else [cur.reverse]
  | c :: cs =>
    if c.isWhitespace then
      if cur.isEmpty then splitWsAux [] cs else cur.reverse :: splitWsAux [] cs
    else splitWsAux (c :: cur) cs

/-- Python `str.split()` with no argument: split on whitespace runs, no empty
tokens. -/
def splitWs (cs : List Char) : List (List Char) := splitWsAux [] cs

/-- Python `" ".join(tokens)`. -/
def joinSpace : List (List Char) → List Char
  | [] => []
  | [t] => t
  | t :: ts => t ++ ' ' :: joinSpace ts

/-- Does the two-character sequence `a b` spell one of the ordinal suffixes
`st`, `nd`, `rd`, `th` of the pattern `(\d+)(st|nd|rd|th)`? -/
def isOrdSuffix (a b : Char) : Bool :=
  (a == 's' && b == 't') || (a == 'n' && b == 'd') ||
    (a == 'r' && b == 'd') || (a == 't' && b == 'h')

/-- Model of `re.sub(r"(\d+)(st|nd|rd|th)", r"\1", s)`: scanning left to right, an
ordinal suffix immediately following a digit is deleted (the digits are kept
by the replacement `\1`), and scanning resumes after the deleted suffix.  A
suffix can only follow the last digit of a maximal digit run, so checking
after every digit is equivalent to the regex's leftmost-match behaviour. -/
def stripOrdinals : List Char → List Char
  | [] => []
  | c :: a :: b :: r =>
    if c.isDigit && isOrdSuffix a b then c :: stripOrdinals r
    else c :: stripOrdinals (a :: b :: r)
  | c :: rest => c :: stripOrdinals rest

/-- Numeric value of a digit character. -/
def digitVal (c : Char) : Nat := c.toNat - 48

/-- Decimal-accumulator loop of `int(s)` on a digit string. -/
def natOfDigitsAux (acc : Nat) : List Char → Nat
  | [] => acc
  | c :: cs => natOfDigitsAux (acc * 10 + digitVal c) cs

/-- Value of Python `int(s)` for a string of decimal digits. -/
def natOfDigits (cs : List Char) : Nat := natOfDigitsAux 0 cs

/-- Python `str.isdigit()`: non-empty and every character a digit. -/
def pyIsdigit (cs : List Char) : Bool := !cs.isEmpty && cs.all (·.isDigit)

/-- The full English month names matched by `strptime`'s `%B` in the C
locale, in calendar order. -/
def monthNames : List (List Char) :=
  [ ['J','a','n','u','a','r','y'], ['F','e','b','r','u','a','r','y'],
    ['M','a','r','c','h'], ['A','p','r','i','l'], ['M','a','y'],
    ['J','u','n','e'], ['J','u','l','y'], ['A','u','g','u','s','t'],
    ['S','e','p','t','e','m','b','e','r'], ['O','c','t','o','b','e','r'],
    ['N','o','v','e','m','b','e','r'], ['D','e','c','e','m','b','e','r'] ]

/-- Case-insensitive matching of the pattern `pat` against the front of the
input, returning the unconsumed rest (how `strptime` matches a month name,
its regex being compiled with `IGNORECASE`). -/
def consumeCI : List Char → List Char → Option (List Char)
  | [], cs => some cs
  | _ :: _, [] => none
  | p :: ps, c :: cs => if p.toLower == c.toLower then consumeCI ps cs else none

/-- Try each month name in turn, returning its 1-based month number and the
unconsumed input.  `strptime` sorts the alternation longest-first, but no
month name is a case-insensitive prefix of another, so at most one
alternative can both match and let the rest of the pattern succeed; trying
them in calendar order is equivalent. -/
def matchMonthAux : List (List Char) → Nat → List Char → Option (Nat × List Char)
  | [], _, _ => none
  | nm :: rest, i, cs =>
    match consumeCI nm cs with
    | some r => some (i + 1, r)
    | none => matchMonthAux rest (i + 1) cs

/-- Match `%B` (a full month name) at the front of the input. -/
def matchMonth (cs : List Char) : Option (Nat × List Char) :=
  matchMonthAux monthNames 0 cs

/-- Match the `\s+` that `strptime` compiles a whitespace run in the format
string into: at least one whitespace character, consumed greedily. -/
def eatWs : List Char → Option (List Char)
  | [] => none
  | c :: cs => if c.isWhitespace then some (cs.dropWhile (·.isWhitespace)) else none

/-- Gregorian leap-year rule, as used by `datetime.date`. -/
def isLeap (y : Nat) : Bool := y % 4 == 0 && (y % 100 != 0 || y % 400 == 0)

/-- Number of days in month `m` of year `y`, as validated by
`datetime.date(year, month, day)`. -/
def daysInMonth (y m : Nat) : Nat :=
  if m == 2 then (if isLeap y then 29 else 28)
  else if m == 4 || m == 6 || m == 9 || m == 11 then 30
  else 31

/-- Model of `datetime.strptime(s, "%B %d %Y").date()`, returning `none` where Python
raises `ValueError`.  `%B` matches a full month name case-insensitively;
`%d` matches `3[01]|[12]\d|0[1-9]|[1-9]| [1-9]` (equivalently: a maximal
digit run of length 1 or 2 with value 1..31, since a longer run or value 0
makes every alternative's continuation fail, and the leading-space
alternative is subsumed by the greedy `\s+` before it); `%Y` matches exactly
four digits; trailing unconverted input is an error; finally
`datetime.date` requires `1 ≤ year` and the day to exist in the month. -/
def strptimeBdY (cs : List Char) : Option PyDate :=
  match matchMonth cs with
  | none => none
  | some (mo, r1) =>
    match eatWs r1 with
    | none => none
    | some r2 =>
      if (r2.takeWhile (·.isDigit)).length = 0 then none
      else if 2 < (r2.takeWhile (·.isDigit)).length then none
      else if natOfDigits (r2.takeWhile (·.isDigit)) < 1 then none
      else if 31 < natOfDigits (r2.takeWhile (·.isDigit)) then none
      else
        match eatWs (r2.dropWhile (·.isDigit)) with
        | none => none
        | some r4 =>
          if (r4.takeWhile (·.isDigit)).length ≠ 4 then none
          else if !(r4.dropWhile (·.isDigit)).isEmpty then none
          else if natOfDigits (r4.takeWhile (·.isDigit)) < 1 then none
          else if daysInMonth (natOfDigits (r4.takeWhile (·.isDigit))) mo
              < natOfDigits (r2.takeWhile (·.isDigit)) then none
          else some ⟨natOfDigits (r4.takeWhile (·.isDigit)), mo,
                     natOfDigits (r2.takeWhile (·.isDigit))⟩

/-- Calendar number (1-based) of an exact month name, 0 if not a month name
(used only to state what a well-formed label denotes). -/
def monthNumAux : List (List Char) → List Char → Nat → Nat
  | [], _, _ => 0
  | nm :: rest, m, i => if nm == m then i else monthNumAux rest m (i + 1)

/-- Calendar number denoted by a month name (`['M','a','y'] ↦ 5`). -/
def monthNum (m : List Char) : Nat := monthNumAux monthNames m 1

/-- Lines 98-111 of `update_jackpots.py`: split the anchor text on
whitespace, require at least three tokens, drop the weekday token, rejoin
with single spaces, strip ordinal suffixes, and parse as `"%B %d %Y"`. -/
def extractDate (raw : List Char) : Option PyDate :=
  if (splitWs raw).length < 3 then none
  else strptimeBdY (stripOrdinals (joinSpace (splitWs raw).tail))

/-- One `<td>` as seen by `parse_draw_rows`: the text of its first `<a>` (if
any), the stripped texts of its `resultBall` spans in document order, and
the stripped text of its first `<strong>` (if any).  Text that sits in the
cell outside these elements is never read by the parser and is therefore not
part of the model. -/
structure Cell where
  anchorText : Option String
  ballTexts : List String
  strongText : Option String
  deriving DecidableEq, Repr

/-- Date stage of a row (lines 92-111): the first cell must have an `<a>`
with non-empty text, whose text then goes through `extractDate`. -/
def rowDate (c : Cell) : Option PyDate :=
  match c.anchorText with
  | none => none
  | some raw => if raw.data.isEmpty then none else extractDate raw.data

/-- Numbers stage of a row (lines 117-124): the purely numeric `resultBall`
texts of the second cell, in document order, as integers. -/
def rowNumbers (c : Cell) : List Int :=
  (c.ballTexts.filter (fun t => pyIsdigit t.data)).map
    (fun t => (natOfDigits t.data : Int))

/-- Model of `jackpot_text.replace("$", "").replace(",", "")`: delete every `$` and
`,` (deleting `,` cannot create a `$`, so one filter is equivalent to the
two sequential `replace` calls). -/
def stripMoney (cs : List Char) : List Char :=
  cs.filter (fun c => !(c == '$' || c == ','))

/-- Jackpot stage of a row (lines 128-139): the third cell must have a
`<strong>`; after deleting `$` and `,` the remainder must be purely numeric
and is parsed as an integer. -/
def rowJackpot (c : Cell) : Option Int :=
  match c.strongText with
  | none => none
  | some jt =>
    if pyIsdigit (stripMoney jt.data) then some ((natOfDigits (stripMoney jt.data) : Int))
    else none

/-- One output record of `parse_draw_rows`.  The Python dict stores the date
as its `isoformat` string; the record keeps the `date` object, and
`drawToJson` below performs the formatting. -/
structure DrawRecord where
  date : PyDate
  numbers : List Int
  jackpot : Int
  deriving DecidableEq, Repr

/-- Lines 85-146 of `update_jackpots.py`, for a single `<tr>`: `none` where
the Python loop executes `continue`, `some` where it appends a record. -/
def parseRow : List Cell → Option DrawRecord
  | c1 :: c2 :: c3 :: _ =>
    match rowDate c1 with
    | none => none
    | some draw_date =>
      if dateLt draw_date CUTOFF_DATE then none
      else if (rowNumbers c2).isEmpty then none
      else
        match rowJackpot c3 with
        | none => none
        | some j => some ⟨draw_date, rowNumbers c2, j⟩
  | _ => none

/-- The loop of `parse_draw_rows`: every `<tr>` of the document contributes at most one
record, in document order. -/
def parse_draw_rows (doc : List (List Cell)) : List DrawRecord :=
  doc.filterMap parseRow

/-- Is `dt` a date `datetime.date` accepts, at or under its `MAXYEAR`? -/
def validDate (dt : PyDate) : Prop :=
  1 ≤ dt.year ∧ dt.year ≤ 9999 ∧ 1 ≤ dt.month ∧ dt.month ≤ 12 ∧
    1 ≤ dt.day ∧ dt.day ≤ daysInMonth dt.year dt.month

instance : DecidablePred validDate := fun dt => by
  unfold validDate
  infer_instance

/-- Zero-padded two-digit rendering used by `date.isoformat`. -/
def pad2 (n : Nat) : String := if n < 10 then "0" ++ Nat.repr n else Nat.repr n

/-- Zero-padded four-digit rendering used by `date.isoformat`. -/
def pad4 (n : Nat) : String :=
  if n < 10 then "000" ++ Nat.repr n
  else if n < 100 then "00" ++ Nat.repr n
  else if n < 1000 then "0" ++ Nat.repr n
  else Nat.repr n

/-- Python `date.isoformat()`: `YYYY-MM-DD`. -/
def isoformat (dt : PyDate) : String :=
  pad4 dt.year ++ "-" ++ pad2 dt.month ++ "-" ++ pad2 dt.day

/-- JSON values, as far as this repository's data goes. -/
inductive Json where
  | str : String → Json
  | num : Int → Json
  | arr : List Json → Json
  | obj : List (String × Json) → Json

/-- The dict `{"date": ..., "numbers": [...], "jackpot": ...}` appended by
`parse_draw_rows` (lines 142-146). -/
def drawToJson (r : DrawRecord) : Json :=
  .obj [("date", .str (isoformat r.date)),
        ("numbers", .arr (r.numbers.map Json.num)),
        ("jackpot", .num r.jackpot)]

/-- The snapshot object built by `main` (lines 173-177 of
`update_jackpots.py`), keyed `timestamp`, `powerball`, `megaMillions`. -/
def buildSnapshot (ts : String) (pb mm : List DrawRecord) : List (String × Json) :=
  [("timestamp", .str ts),
   ("powerball", .arr (pb.map drawToJson)),
   ("megaMillions", .arr (mm.map drawToJson))]

/-- Python dict lookup on an association list; on duplicate keys the last
binding wins, as in a dict built by `json.load`.  `lookupKey h k = none`
models `k not in h`. -/
def lookupKey : List (String × Json) → String → Option Json
  | [], _ => none
  | (k', v) :: rest, k =>
    match lookupKey rest k with
    | some v' => some v'
    | none => if k' == k then some v else none

/-- Character-level Python `str.strip()`. -/
def pyStripChars (cs : List Char) : List Char :=
  ((cs.dropWhile (·.isWhitespace)).reverse.dropWhile (·.isWhitespace)).reverse

/-- Python `str.strip()`. -/
def pyStrip (s : String) : String := String.mk (pyStripChars s.data)

/-- Is this JSON value a dict (an object with a `.get` method)? -/
def isObjJson : Json → Bool
  | .obj _ => true
  | _ => false

/-- Filter test `e.get("date") == date` for a dict entry `e`: true exactly when the
`date` field holds that string. -/
def entryDateMatches (d : String) : Json → Bool
  | .obj fs =>
    match lookupKey fs "date" with
    | some (.str s) => s == d
    | _ => false
  | _ => false

/-- Outcome of a `GET /lottery` request: a JSON body, an
`HTTPException(404, detail)` carrying its detail message, or an uncaught
Python exception (FastAPI's 500 path). -/
inductive ApiResult where
  | ok : Json → ApiResult
  | notFound : String → ApiResult
  | pyError : ApiResult

/-- Is this response the 404 ("not found") outcome? -/
def ApiResult.isNotFound : ApiResult → Bool
  | .notFound _ => true
  | _ => false

/-- Handler `get_lottery` from `api.py`, lines 15-49, applied to an already-loaded
snapshot dict.  `if not game:` and `if date:` are Python truthiness tests,
false for both `None` and `""`.  The list comprehension
`[e for e in entries if e.get("date") == date]` is only well-defined when
`entries` is a list of dicts; iterating a non-empty string or dict yields
elements without `.get` (AttributeError), iterating a number raises
TypeError, while an empty iterable filters to `[]` without ever calling
`.get` and so reaches the 404 branch. -/
def get_lottery (history : List (String × Json)) (game date : Option String) : ApiResult :=
  match game with
  | none => .ok (.obj history)
  | some g =>
    if g == "" then .ok (.obj history)
    else
      match lookupKey history (pyStrip g) with
      | none => .notFound ("Game '" ++ g ++ "' not found")
      | some entries =>
        match date with
        | none => .ok entries
        | some d =>
          if d == "" then .ok entries
          else
            match entries with
            | .arr xs =>
              if xs.all isObjJson then
                if (xs.filter (entryDateMatches d)).isEmpty then
                  .notFound ("No " ++ pyStrip g ++ " draws found on " ++ d)
                else .ok (.arr (xs.filter (entryDateMatches d)))
              else .pyError
            | .str s =>
              if s.isEmpty then .notFound ("No " ++ pyStrip g ++ " draws found on " ++ d)
              else .pyError
            | .obj fs =>
              if fs.isEmpty then .notFound ("No " ++ pyStrip g ++ " draws found on " ++ d)
              else .pyError
            | .num _ => .pyError

/-- A row fails one of the structural checks of `parse_draw_rows`: fewer
than three cells, an unusable date cell (no anchor, empty anchor text, or a
label that does not parse), zero numeric balls, or a missing/non-numeric
jackpot. -/
def rowAnomalous (row : List Cell) : Prop :=
  row.length < 3 ∨
    ∃ c1 c2 c3 rest, row = c1 :: c2 :: c3 :: rest ∧
      (rowDate c1 = none ∨ rowNumbers c2 = [] ∨ rowJackpot c3 = none)

/-- Concrete snapshot fixture: both game arrays empty. -/
def histPB : List (String × Json) :=
  [("timestamp", .str "2025-06-03T14:00:00+00:00"),
   ("powerball", .arr []),
   ("megaMillions", .arr [])]

/-- Concrete snapshot fixture: one Mega Millions draw dated 2025-01-07. -/
def histMM : List (String × Json) :=
  [("timestamp", .str "2025-06-03T14:00:00+00:00"),
   ("powerball", .arr []),
   ("megaMillions", .arr [Json.obj
     [("date", .str "2025-01-07"),
      ("numbers", .arr [Json.num 4, Json.num 14, Json.num 35]),
      ("jackpot", .num 20000000)]])]

end Lottery

/-!
Sanity checks: concrete evaluations of the embedded definitions, matching
what the Python functions compute on the same inputs (including leap-year
validation, the cutoff filter, ordinal stripping, and both API paths).
-/

namespace Lottery

example : extractDate "Friday May 30th 2025".data = some ⟨2025, 5, 30⟩ := by decide

example :
    parseRow [⟨some "Friday May 30th 2025", [], none⟩,
              ⟨none, ["1", "7", "22", "x"], none⟩,
              ⟨none, [], some "$189,000,000"⟩]
      = some ⟨⟨2025, 5, 30⟩, [1, 7, 22], 189000000⟩ := by decide

example : extractDate "Friday May 30th 2024".data = some ⟨2024, 5, 30⟩ := by decide

example : parseRow [⟨some "Friday May 30th 2024", [], none⟩,
              ⟨none, ["1"], none⟩, ⟨none, [], some "$1"⟩] = none := by decide

example : extractDate "Friday Feb 30th 2025".data = none := by decide

example : extractDate "Friday February 29th 2024".data = some ⟨2024, 2, 29⟩ := by decide

example : extractDate "Friday February 29th 2025".data = none := by decide

example : stripOrdinals "May 1st2nd 2025".data = "May 12 2025".data := by decide

example : get_lottery [("timestamp", .str "t"), ("powerball", .arr [])]
    (some " powerball ") none = .ok (.arr []) := rfl

example : get_lottery [("timestamp", .str "t")] (some "x") none
    = .notFound "Game 'x' not found" := rfl

end Lottery

namespace Lottery

theorem get_lottery_absent (history : List (String × Json)) (g : String)
    (hg : g ≠ "") (d : Option String)
    (h : lookupKey history (pyStrip g) = none) :
    get_lottery history (some g) d = .notFound ("Game '" ++ g ++ "' not found") := by
  have hg' : (g == "") = false := by
    cases hb : g == ""
    · rfl
    · exact absurd (eq_of_beq hb) hg
  simp [get_lottery, hg', h]

theorem get_lottery_found_nodate (history : List (String × Json)) (g : String)
    (hg : g ≠ "") (v : Json)
    (h : lookupKey history (pyStrip g) = some v) :
    get_lottery history (some g) none = .ok v := by
  have hg' : (g == "") = false := by
    cases hb : g == ""
    · rfl
    · exact absurd (eq_of_beq hb) hg
  simp [get_lottery, hg', h]

theorem get_lottery_found_date (history : List (String × Json)) (g : String)
    (hg : g ≠ "") (d : String) (hd : d ≠ "") (xs : List Json)
    (h : lookupKey history (pyStrip g) = some (.arr xs))
    (hobj : xs.all isObjJson = true) :
    get_lottery history (some g) (some d) =
      if (xs.filter (entryDateMatches d)).isEmpty then
        .notFound ("No " ++ pyStrip g ++ " draws found on " ++ d)
      else .ok (.arr (xs.filter (entryDateMatches d))) := by
  have hg' : (g == "") = false := by
    cases hb : g == ""
    · rfl
    · exact absurd (eq_of_beq hb) hg
  have hd' : (d == "") = false := by
    cases hb : d == ""
    · rfl
    · exact absurd (eq_of_beq hb) hd
  simp [get_lottery, hg', h, hd', hobj]

/-- C7: `GET /lottery` with no parameters returns the snapshot exactly as
stored, and any snapshot produced by a fetcher run (`main`'s `output` dict)
has exactly the keys `timestamp`, `powerball`, `megaMillions`. -/
theorem get_lottery_full_snapshot (history : List (String × Json))
    (ts : String) (pb mm : List DrawRecord) :
    get_lottery history none none = .ok (.obj history)
    ∧ (buildSnapshot ts pb mm).map Prod.fst
        = ["timestamp", "powerball", "megaMillions"] :=
  ⟨rfl, rfl⟩

/-- C8: a `game` parameter equal to the empty string is falsy for
`if not game:`, so the request is treated as if the parameter were omitted
and the full snapshot is returned, even though `""` is not a key of any
fetcher-produced snapshot. -/
theorem get_lottery_empty_game_param (history : List (String × Json))
    (d : Option String) :
    get_lottery history (some "") d = .ok (.obj history)
    ∧ get_lottery history (some "") d = get_lottery history none d
    ∧ ∀ ts pb mm, lookupKey (buildSnapshot ts pb mm) "" = none :=
  ⟨rfl, rfl, fun _ _ _ => rfl⟩

/-- C6: `game=powerball` against a snapshot whose `powerball` key holds an
empty array returns the empty array as a success, not a 404: the not-found
condition of the game-only path is keyed on absence of the key, not
emptiness of its array. -/
theorem get_lottery_empty_array_ok (history : List (String × Json))
    (h : lookupKey history "powerball" = some (.arr [])) :
    get_lottery history (some "powerball") none = .ok (.arr []) :=
  get_lottery_found_nodate history "powerball" (by decide) (.arr []) h

theorem get_lottery_empty_array_ok_witness :
    get_lottery histPB (some "powerball") none = .ok (.arr []) :=
  get_lottery_empty_array_ok histPB rfl

/-- C9: the game lookup compares the whitespace-stripped `game` parameter
against the snapshot keys (`key = game.strip()`), so `game=" powerball "`
finds the `powerball` entry; the game-lookup 404 message echoes the
original, unstripped parameter value (`f"Game '{game}' not found"`). -/
theorem get_lottery_strips_game_param (history : List (String × Json)) :
    (∀ v, lookupKey history "powerball" = some v →
      get_lottery history (some " powerball ") none = .ok v)
    ∧ (∀ g, g ≠ "" → lookupKey history (pyStrip g) = none →
      get_lottery history (some g) none
        = .notFound ("Game '" ++ g ++ "' not found"))
    ∧ (∀ g v, g ≠ "" → lookupKey history (pyStrip g) = some v →
      get_lottery history (some g) none = .ok v) := by
  refine ⟨fun v hv => ?_, fun g hg h => get_lottery_absent history g hg none h,
    fun g v hg hv => get_lottery_found_nodate history g hg v hv⟩
  have hs : pyStrip " powerball " = "powerball" := rfl
  have := get_lottery_found_nodate history " powerball " (by decide) v (by rw [hs]; exact hv)
  exact this

theorem get_lottery_strips_game_param_witness :
    get_lottery histPB (some " powerball ") none = .ok (.arr [])
    ∧ get_lottery histPB (some " mystery ") none
        = .notFound "Game ' mystery ' not found" :=
  ⟨(get_lottery_strips_game_param histPB).1 (.arr []) rfl,
   (get_lottery_strips_game_param histPB).2.1 " mystery " (by decide) rfl⟩

/-- C3 counterexample: on a snapshot without a key `""`, the request
`game=""` carries a game parameter whose key is absent from the snapshot,
yet the server returns the full snapshot as a success instead of the
not-found response the claim requires (`if not game:` short-circuits before
the key check). -/
theorem get_lottery_game_absent_cex :
    lookupKey histPB "" = none
    ∧ get_lottery histPB (some "") none = .ok (.obj histPB)
    ∧ (get_lottery histPB (some "") none).isNotFound = false :=
  ⟨rfl, rfl, rfl⟩

/-- C3 (amended): for a request carrying a NON-EMPTY `game` parameter, the
server looks up the whitespace-stripped parameter: if that key is absent it
returns a 404 naming the requested game; if a non-empty `date` parameter is
also given and zero entries of the key's array (an array of objects) have a
`date` field equal to the given string, it returns a 404 naming the
(stripped) game and the date; otherwise the (possibly date-filtered) array
for that key is returned.  (An empty `game` parameter instead returns the
full snapshot, and an empty `date` parameter is treated as absent.) -/
theorem get_lottery_game_lookup (history : List (String × Json)) (g : String)
    (hg : g ≠ "") :
    (∀ d, lookupKey history (pyStrip g) = none →
      get_lottery history (some g) d
        = .notFound ("Game '" ++ g ++ "' not found"))
    ∧ (∀ v, lookupKey history (pyStrip g) = some v →
      get_lottery history (some g) none = .ok v)
    ∧ (∀ d xs, d ≠ "" → lookupKey history (pyStrip g) = some (.arr xs) →
        xs.all isObjJson = true →
        ((xs.filter (entryDateMatches d)).isEmpty = true →
          get_lottery history (some g) (some d)
            = .notFound ("No " ++ pyStrip g ++ " draws found on " ++ d))
        ∧ ((xs.filter (entryDateMatches d)).isEmpty = false →
          get_lottery history (some g) (some d)
            = .ok (.arr (xs.filter (entryDateMatches d))))) := by
  refine ⟨fun d h => get_lottery_absent history g hg d h,
    fun v hv => get_lottery_found_nodate history g hg v hv,
    fun d xs hd h hobj => ?_⟩
  have hbase := get_lottery_found_date history g hg d hd xs h hobj
  constructor
  · intro hemp
    rw [hbase, hemp]
    rfl
  · intro hemp
    rw [hbase, hemp]
    rfl

theorem get_lottery_game_lookup_witness :
    get_lottery histMM (some "unknownGame") none
      = .notFound "Game 'unknownGame' not found"
    ∧ get_lottery histMM (some "megaMillions") (some "2025-01-07")
      = .ok (.arr [Json.obj
          [("date", .str "2025-01-07"),
           ("numbers", .arr [Json.num 4, Json.num 14, Json.num 35]),
           ("jackpot", .num 20000000)]])
    ∧ get_lottery histMM (some "megaMillions") (some "2099-01-01")
      = .notFound "No megaMillions draws found on 2099-01-01" :=
  ⟨(get_lottery_game_lookup histMM "unknownGame" (by decide)).1 none rfl,
   ((get_lottery_game_lookup histMM "megaMillions" (by decide)).2.2
      "2025-01-07" _ (by decide) rfl rfl).2 rfl,
   ((get_lottery_game_lookup histMM "megaMillions" (by decide)).2.2
      "2099-01-01" _ (by decide) rfl rfl).1 rfl⟩

end Lottery

namespace Lottery

theorem char_isDigit_toNat {c : Char} (h : c.isDigit = true) :
    48 ≤ c.toNat ∧ c.toNat ≤ 57 := by
  simp only [Char.isDigit, Bool.and_eq_true, decide_eq_true_eq] at h
  obtain ⟨h1, h2⟩ := h
  constructor
  · exact UInt32.le_toNat_of_le (by decide) h1
  · exact UInt32.toNat_le_of_le (by decide) h2

theorem digit_not_ws {c : Char} (h : c.isDigit = true) : c.isWhitespace = false := by
  obtain ⟨h1, h2⟩ := char_isDigit_toNat h
  cases hw : c.isWhitespace
  · rfl
  · exfalso
    simp only [Char.isWhitespace, Bool.or_eq_true, decide_eq_true_eq] at hw
    rcases hw with ((rfl | rfl) | rfl) | rfl <;> exact absurd h1 (by decide)

theorem beq_false_of_digit_big {c : Char} (x : Char) (h : c.isDigit = true)
    (hx : 57 < x.toNat) : (c == x) = false := by
  obtain ⟨_, h2⟩ := char_isDigit_toNat h
  cases hcs : c == x
  · rfl
  · exfalso
    have hcx : c = x := eq_of_beq hcs
    subst hcx
    omega

theorem digit_isOrdSuffix {c : Char} (b : Char) (h : c.isDigit = true) :
    isOrdSuffix c b = false := by
  simp only [isOrdSuffix,
    beq_false_of_digit_big 's' h (by decide),
    beq_false_of_digit_big 'n' h (by decide),
    beq_false_of_digit_big 'r' h (by decide),
    beq_false_of_digit_big 't' h (by decide),
    Bool.false_and, Bool.or_self]

end Lottery

namespace Lottery

theorem splitWsAux_nonws :
    ∀ (tok : List Char), (∀ c ∈ tok, c.isWhitespace = false) →
      ∀ (cur cs : List Char),
        splitWsAux cur (tok ++ cs) = splitWsAux (tok.reverse ++ cur) cs := by
  intro tok
  induction tok with
  | nil => intro _ cur cs; simp
  | cons a t ih =>
    intro h cur cs
    have ha : a.isWhitespace = false := h a (List.mem_cons_self a t)
    rw [List.cons_append]
    show splitWsAux cur (a :: (t ++ cs)) = _
    rw [splitWsAux, ha]
    simp only [Bool.false_eq_true, if_false]
    rw [ih (fun c hc => h c (List.mem_cons_of_mem a hc)) (a :: cur) cs]
    simp [List.append_assoc]

theorem splitWs_token_sep (tok cs : List Char) (hne : tok ≠ [])
    (h : ∀ c ∈ tok, c.isWhitespace = false) :
    splitWs (tok ++ ' ' :: cs) = tok :: splitWs cs := by
  unfold splitWs
  rw [splitWsAux_nonws tok h [] (' ' :: cs)]
  rw [splitWsAux]
  have hrev : (tok.reverse ++ []).isEmpty = false := by
    rw [List.append_nil, List.isEmpty_eq_false]
    simp only [ne_eq, List.reverse_eq_nil_iff]
    exact hne
  simp only [Char.isWhitespace]
  rw [if_pos (by decide), hrev]
  simp

theorem splitWs_token_last (tok : List Char) (hne : tok ≠ [])
    (h : ∀ c ∈ tok, c.isWhitespace = false) :
    splitWs tok = [tok] := by
  unfold splitWs
  have h2 := splitWsAux_nonws tok h [] []
  rw [List.append_nil] at h2
  rw [h2, splitWsAux]
  have hrev : (tok.reverse ++ []).isEmpty = false := by
    rw [List.append_nil, List.isEmpty_eq_false]
    simp only [ne_eq, List.reverse_eq_nil_iff]
    exact hne
  rw [hrev]
  simp

theorem stripOrdinals_cons_nondigit (c : Char) (h : c.isDigit = false)
    (rest : List Char) :
    stripOrdinals (c :: rest) = c :: stripOrdinals rest := by
  match rest with
  | [] => rfl
  | [a] => rfl
  | a :: b :: r =>
    rw [stripOrdinals, h]
    simp

theorem stripOrdinals_cons_cons_digit (c c2 : Char) (h2 : c2.isDigit = true)
    (rest : List Char) :
    stripOrdinals (c :: c2 :: rest) = c :: stripOrdinals (c2 :: rest) := by
  match rest with
  | [] => rfl
  | x :: r =>
    rw [stripOrdinals, digit_isOrdSuffix x h2]
    simp

theorem stripOrdinals_nondigit :
    ∀ (xs : List Char), (∀ c ∈ xs, c.isDigit = false) →
      ∀ r, stripOrdinals (xs ++ r) = xs ++ stripOrdinals r := by
  intro xs
  induction xs with
  | nil => intro _ r; simp
  | cons a t ih =>
    intro h r
    rw [List.cons_append,
      stripOrdinals_cons_nondigit a (h a (List.mem_cons_self a t)),
      ih (fun c hc => h c (List.mem_cons_of_mem a hc)) r]
    rfl

theorem stripOrdinals_digits_suffix :
    ∀ (ds : List Char), ds ≠ [] → (∀ c ∈ ds, c.isDigit = true) →
      ∀ (a b : Char), isOrdSuffix a b = true →
        ∀ r, stripOrdinals (ds ++ a :: b :: r) = ds ++ stripOrdinals r := by
  intro ds
  induction ds with
  | nil => intro hne; exact absurd rfl hne
  | cons c t ih =>
    intro _ h a b hs r
    cases t with
    | nil =>
      rw [List.singleton_append, stripOrdinals, h c (List.mem_cons_self c []), hs]
      simp
    | cons c2 t2 =>
      simp only [List.cons_append]
      rw [stripOrdinals_cons_cons_digit c c2 (h c2 (by simp)) (t2 ++ a :: b :: r)]
      have hih := ih (by simp) (fun x hx => h x (List.mem_cons_of_mem c hx)) a b hs r
      simp only [List.cons_append] at hih
      rw [hih]

theorem stripOrdinals_digits_id :
    ∀ (ds : List Char), (∀ c ∈ ds, c.isDigit = true) → stripOrdinals ds = ds := by
  intro ds
  induction ds with
  | nil => intro _; rfl
  | cons c t ih =>
    intro h
    cases t with
    | nil => rfl
    | cons c2 t2 =>
      rw [stripOrdinals_cons_cons_digit c c2 (h c2 (by simp)) t2,
        ih (fun x hx => h x (List.mem_cons_of_mem c hx))]

theorem takeWhile_append_pred (p : Char → Bool) :
    ∀ (xs : List Char), (∀ c ∈ xs, p c = true) →
      ∀ r, (xs ++ r).takeWhile p = xs ++ r.takeWhile p := by
  intro xs
  induction xs with
  | nil => intro _ r; simp
  | cons a t ih =>
    intro h r
    rw [List.cons_append, List.takeWhile_cons, h a (List.mem_cons_self a t)]
    simp only []
    rw [ih (fun c hc => h c (List.mem_cons_of_mem a hc)) r]
    rfl

theorem dropWhile_append_pred (p : Char → Bool) :
    ∀ (xs : List Char), (∀ c ∈ xs, p c = true) →
      ∀ r, (xs ++ r).dropWhile p = r.dropWhile p := by
  intro xs
  induction xs with
  | nil => intro _ r; simp
  | cons a t ih =>
    intro h r
    rw [List.cons_append, List.dropWhile_cons, h a (List.mem_cons_self a t)]
    simp only []
    exact ih (fun c hc => h c (List.mem_cons_of_mem a hc)) r

end Lottery

namespace Lottery

theorem natOfDigitsAux_nil (acc : Nat) : natOfDigitsAux acc [] = acc := rfl

theorem natOfDigitsAux_cons (acc : Nat) (c : Char) (cs : List Char) :
    natOfDigitsAux acc (c :: cs) = natOfDigitsAux (acc * 10 + digitVal c) cs := rfl

theorem natOfDigitsAux_lt :
    ∀ (cs : List Char), (∀ c ∈ cs, c.isDigit = true) →
      ∀ acc, natOfDigitsAux acc cs < (acc + 1) * 10 ^ cs.length := by
  intro cs
  induction cs with
  | nil => intro _ acc; rw [natOfDigitsAux_nil]; simp
  | cons c t ih =>
    intro h acc
    have hc : digitVal c ≤ 9 := by
      obtain ⟨h1, h2⟩ := char_isDigit_toNat (h c (List.mem_cons_self c t))
      unfold digitVal
      omega
    have hrec := ih (fun x hx => h x (List.mem_cons_of_mem c hx)) (acc * 10 + digitVal c)
    calc natOfDigitsAux acc (c :: t)
        = natOfDigitsAux (acc * 10 + digitVal c) t := natOfDigitsAux_cons acc c t
      _ < (acc * 10 + digitVal c + 1) * 10 ^ t.length := hrec
      _ ≤ ((acc + 1) * 10) * 10 ^ t.length := by
          have : acc * 10 + digitVal c + 1 ≤ (acc + 1) * 10 := by omega
          exact Nat.mul_le_mul_right _ this
      _ = (acc + 1) * 10 ^ (c :: t).length := by
          rw [List.length_cons, pow_succ]
          ring

theorem natOfDigits_lt (cs : List Char) (h : ∀ c ∈ cs, c.isDigit = true) :
    natOfDigits cs < 10 ^ cs.length := by
  have := natOfDigitsAux_lt cs h 0
  simpa [natOfDigits] using this

theorem matchMonthAux_bound :
    ∀ (names : List (List Char)) (i : Nat) (cs : List Char) (k : Nat) (r : List Char),
      matchMonthAux names i cs = some (k, r) → i < k ∧ k ≤ i + names.length := by
  intro names
  induction names with
  | nil => intro i cs k r h; exact absurd h (by simp [matchMonthAux])
  | cons nm rest ih =>
    intro i cs k r h
    rw [matchMonthAux] at h
    cases hc : consumeCI nm cs with
    | some r' =>
      rw [hc] at h
      simp only [Option.some.injEq, Prod.mk.injEq] at h
      obtain ⟨hk, _⟩ := h
      subst hk
      simp
    | none =>
      rw [hc] at h
      have := ih (i + 1) cs k r h
      simp only [List.length_cons]
      omega

theorem strptimeBdY_valid (cs : List Char) (dt : PyDate)
    (h : strptimeBdY cs = some dt) : validDate dt := by
  rw [strptimeBdY] at h
  split at h
  · exact Option.noConfusion h
  · rename_i mo r1 hm
    have hmo : 1 ≤ mo ∧ mo ≤ 12 := by
      have := matchMonthAux_bound monthNames 0 cs mo r1 hm
      simpa [monthNames] using this
    split at h
    · exact Option.noConfusion h
    · rename_i r2 he1
      split at h
      · exact Option.noConfusion h
      · rename_i hlen0
        split at h
        · exact Option.noConfusion h
        · rename_i hlen2
          split at h
          · exact Option.noConfusion h
          · rename_i hd1
            split at h
            · exact Option.noConfusion h
            · rename_i hd31
              split at h
              · exact Option.noConfusion h
              · rename_i r4 he2
                split at h
                · exact Option.noConfusion h
                · rename_i hylen
                  split at h
                  · exact Option.noConfusion h
                  · rename_i hyrest
                    split at h
                    · exact Option.noConfusion h
                    · rename_i hy1
                      split at h
                      · exact Option.noConfusion h
                      · rename_i hday
                        injection h with h
                        subst h
                        have hyd : ∀ c ∈ r4.takeWhile (·.isDigit), c.isDigit = true :=
                          fun c hc => List.mem_takeWhile_imp hc
                        have hlen4 : (r4.takeWhile (·.isDigit)).length = 4 :=
                          not_not.mp hylen
                        have hylt : natOfDigits (r4.takeWhile (·.isDigit)) < 10000 := by
                          have hb := natOfDigits_lt (r4.takeWhile (·.isDigit)) hyd
                          rw [hlen4] at hb
                          norm_num at hb
                          exact hb
                        unfold validDate
                        dsimp only
                        refine ⟨by omega, by omega, hmo.1, hmo.2, by omega, by omega⟩

end Lottery

namespace Lottery

theorem extractDate_valid (raw : List Char) (dt : PyDate)
    (h : extractDate raw = some dt) : validDate dt := by
  rw [extractDate] at h
  split at h
  · exact Option.noConfusion h
  · exact strptimeBdY_valid _ dt h

theorem rowDate_valid (c : Cell) (dt : PyDate) (h : rowDate c = some dt) :
    validDate dt := by
  rw [rowDate] at h
  split at h
  · exact Option.noConfusion h
  · rename_i raw
    split at h
    · exact Option.noConfusion h
    · exact extractDate_valid _ dt h

theorem rowJackpot_nonneg (c : Cell) (j : Int) (h : rowJackpot c = some j) :
    0 ≤ j := by
  rw [rowJackpot] at h
  split at h
  · exact Option.noConfusion h
  · rename_i jt
    split at h
    · injection h with h
      subst h
      exact Int.natCast_nonneg _
    · exact Option.noConfusion h

theorem parseRow_some (row : List Cell) (r : DrawRecord) (h : parseRow row = some r) :
    r.numbers ≠ [] ∧ 0 ≤ r.jackpot ∧ validDate r.date
      ∧ dateLt r.date CUTOFF_DATE = false := by
  match row with
  | [] => exact Option.noConfusion h
  | [c1] => exact Option.noConfusion h
  | [c1, c2] => exact Option.noConfusion h
  | c1 :: c2 :: c3 :: rest =>
    rw [parseRow] at h
    split at h
    · exact Option.noConfusion h
    · rename_i dt hdt
      split at h
      · exact Option.noConfusion h
      · rename_i hcut
        split at h
        · exact Option.noConfusion h
        · rename_i hnum
          split at h
          · exact Option.noConfusion h
          · rename_i j hj
            injection h with h
            subst h
            refine ⟨?_, rowJackpot_nonneg c3 j hj, rowDate_valid c1 dt hdt, ?_⟩
            · dsimp only
              intro hn
              apply hnum
              rw [hn]
              rfl
            · dsimp only
              cases hc : dateLt dt CUTOFF_DATE
              · rfl
              · exact absurd hc hcut

/-- C2: every record output by `parse_draw_rows` satisfies the draw-record
invariant: non-empty numbers list, non-negative integer jackpot, and a valid
calendar date on or after the 2025-01-01 cutoff — so rows dated before the
cutoff and rows yielding zero numeric balls never produce a record. -/
theorem parse_draw_rows_invariant (doc : List (List Cell)) (r : DrawRecord)
    (hr : r ∈ parse_draw_rows doc) :
    r.numbers ≠ [] ∧ 0 ≤ r.jackpot ∧ validDate r.date
      ∧ dateLt r.date CUTOFF_DATE = false := by
  rw [parse_draw_rows] at hr
  obtain ⟨row, _, hpr⟩ := List.mem_filterMap.mp hr
  exact parseRow_some row r hpr

theorem parse_draw_rows_invariant_witness :
    (⟨⟨2025, 5, 30⟩, [1, 7, 22], 189000000⟩ : DrawRecord).numbers ≠ []
    ∧ 0 ≤ (⟨⟨2025, 5, 30⟩, [1, 7, 22], 189000000⟩ : DrawRecord).jackpot
    ∧ validDate (⟨⟨2025, 5, 30⟩, [1, 7, 22], 189000000⟩ : DrawRecord).date
    ∧ dateLt (⟨⟨2025, 5, 30⟩, [1, 7, 22], 189000000⟩ : DrawRecord).date
        CUTOFF_DATE = false :=
  parse_draw_rows_invariant
    [[⟨some "Friday May 30th 2025", [], none⟩,
      ⟨none, ["1", "7", "22"], none⟩,
      ⟨none, [], some "$189,000,000"⟩]]
    ⟨⟨2025, 5, 30⟩, [1, 7, 22], 189000000⟩ (by decide)

/-- C4: jackpot extraction deletes `$` and `,` from the emphasized jackpot
text and requires the remainder to be purely numeric: a row whose remainder
has a non-digit is dropped, otherwise the remainder parses as the integer
jackpot. -/
theorem parseRow_jackpot_extraction (c1 c2 c3 : Cell) (rest : List Cell)
    (dt : PyDate) (jt : String)
    (h1 : rowDate c1 = some dt)
    (h2 : dateLt dt CUTOFF_DATE = false)
    (h3 : rowNumbers c2 ≠ [])
    (h4 : c3.strongText = some jt) :
    (pyIsdigit (stripMoney jt.data) = false →
      parseRow (c1 :: c2 :: c3 :: rest) = none)
    ∧ (pyIsdigit (stripMoney jt.data) = true →
      parseRow (c1 :: c2 :: c3 :: rest)
        = some ⟨dt, rowNumbers c2, (natOfDigits (stripMoney jt.data) : Int)⟩) := by
  have hne : (rowNumbers c2).isEmpty = false := by
    rw [List.isEmpty_eq_false]
    exact h3
  have hjk : rowJackpot c3
      = if pyIsdigit (stripMoney jt.data) then
          some ((natOfDigits (stripMoney jt.data) : Int))
        else none := by
    rw [rowJackpot, h4]
  constructor
  · intro h5
    simp [parseRow, h1, h2, hne, hjk, h5]
  · intro h5
    simp [parseRow, h1, h2, hne, hjk, h5]

theorem parseRow_jackpot_extraction_witness :
    parseRow [⟨some "Friday May 30th 2025", [], none⟩,
              ⟨none, ["1", "7", "22"], none⟩,
              ⟨none, [], some "$189,000,000"⟩]
      = some ⟨⟨2025, 5, 30⟩, [1, 7, 22], 189000000⟩
    ∧ parseRow [⟨some "Friday May 30th 2025", [], none⟩,
                ⟨none, ["1", "7", "22"], none⟩,
                ⟨none, [], some "$1,000,00X"⟩]
      = none :=
  ⟨(parseRow_jackpot_extraction _ _ _ [] ⟨2025, 5, 30⟩ "$189,000,000"
      (by decide) (by decide) (by decide) rfl).2 (by decide),
   (parseRow_jackpot_extraction _ _ _ [] ⟨2025, 5, 30⟩ "$1,000,00X"
      (by decide) (by decide) (by decide) rfl).1 (by decide)⟩

theorem parse_draw_rows_append (pre post : List (List Cell)) (row : List Cell) :
    parse_draw_rows (pre ++ row :: post)
      = parse_draw_rows pre ++ (parseRow row).toList ++ parse_draw_rows post := by
  rw [parse_draw_rows, parse_draw_rows, parse_draw_rows, List.filterMap_append,
    List.filterMap_cons]
  cases parseRow row <;> simp

theorem rowAnomalous_parseRow (row : List Cell) (h : rowAnomalous row) :
    parseRow row = none := by
  rcases h with hlen | ⟨c1, c2, c3, rest, rfl, hfail⟩
  · rcases row with _ | ⟨a, _ | ⟨b, _ | ⟨c, rest⟩⟩⟩
    · rfl
    · rfl
    · rfl
    · exfalso
      simp only [List.length_cons] at hlen
      omega
  · rcases hfail with hd | hn | hj
    · simp [parseRow, hd]
    · cases hrd : rowDate c1 with
      | none => simp [parseRow, hrd]
      | some dt =>
        cases hcut : dateLt dt CUTOFF_DATE with
        | false =>
          have : (rowNumbers c2).isEmpty = true := by rw [hn]; rfl
          simp [parseRow, hrd, hcut, this]
        | true => simp [parseRow, hrd, hcut]
    · cases hrd : rowDate c1 with
      | none => simp [parseRow, hrd]
      | some dt =>
        cases hcut : dateLt dt CUTOFF_DATE with
        | false =>
          cases hne : (rowNumbers c2).isEmpty with
          | true => simp [parseRow, hrd, hcut, hne]
          | false => simp [parseRow, hrd, hcut, hne, hj]
        | true => simp [parseRow, hrd, hcut]

/-- C5: `parse_draw_rows` is total over arbitrary documents and anomalies
are row-local: each row contributes exactly its own (at most one) record,
so an anomalous row is merely absent while every other row's record is
still produced — a bad row never aborts the parse. -/
theorem parse_draw_rows_row_local (pre post : List (List Cell)) (row : List Cell) :
    parse_draw_rows (pre ++ row :: post)
      = parse_draw_rows pre ++ (parseRow row).toList ++ parse_draw_rows post
    ∧ (rowAnomalous row →
      parse_draw_rows (pre ++ row :: post)
        = parse_draw_rows pre ++ parse_draw_rows post) := by
  refine ⟨parse_draw_rows_append pre post row, fun ha => ?_⟩
  rw [parse_draw_rows_append pre post row, rowAnomalous_parseRow row ha]
  simp

theorem parse_draw_rows_row_local_witness :
    parse_draw_rows
        ([[⟨some "Friday May 30th 2025", [], none⟩,
           ⟨none, ["1", "7", "22"], none⟩,
           ⟨none, [], some "$189,000,000"⟩]] ++
          [⟨some "header", [], none⟩] ::
          [[⟨some "Tuesday January 7th 2025", [], none⟩,
            ⟨none, ["4", "14", "35"], none⟩,
            ⟨none, [], some "$20,000,000"⟩]])
      = parse_draw_rows
          [[⟨some "Friday May 30th 2025", [], none⟩,
            ⟨none, ["1", "7", "22"], none⟩,
            ⟨none, [], some "$189,000,000"⟩]] ++
        parse_draw_rows
          [[⟨some "Tuesday January 7th 2025", [], none⟩,
            ⟨none, ["4", "14", "35"], none⟩,
            ⟨none, [], some "$20,000,000"⟩]] :=
  (parse_draw_rows_row_local _ _ _).2 (Or.inl (by decide))

/-- C10: a record is emitted only if the row's first cell has an `<a>`
element with non-empty text; a date label present only as plain text
outside an anchor is invisible to `date_td.find("a")` — such a cell is
modelled by `anchorText = none` — so the row is skipped. -/
theorem parseRow_requires_anchor (c1 : Cell) (rest : List Cell) :
    ((c1.anchorText = none ∨ c1.anchorText = some "") →
      parseRow (c1 :: rest) = none)
    ∧ (∀ r, parseRow (c1 :: rest) = some r →
      ∃ s, c1.anchorText = some s ∧ s ≠ "") := by
  have hrd : (c1.anchorText = none ∨ c1.anchorText = some "") →
      rowDate c1 = none := by
    intro h
    rcases h with h | h
    · rw [rowDate, h]
    · rw [rowDate, h]
      rfl
  rcases rest with _ | ⟨c2, rest1⟩
  · exact ⟨fun _ => rfl, fun r h => Option.noConfusion h⟩
  · rcases rest1 with _ | ⟨c3, rest2⟩
    · exact ⟨fun _ => rfl, fun r h => Option.noConfusion h⟩
    · constructor
      · intro h
        simp [parseRow, hrd h]
      · intro r h
        by_contra hcon
        push_neg at hcon
        have hrdnone : rowDate c1 = none := by
          cases hA : c1.anchorText with
          | none => rw [rowDate, hA]
          | some s =>
            have hs : s = "" := hcon s hA
            subst hs
            rw [rowDate, hA]
            rfl
        simp [parseRow, hrdnone] at h

theorem parseRow_requires_anchor_witness :
    parseRow [⟨none, ["1", "7"], some "$5"⟩,
              ⟨none, ["1", "7"], some "$5"⟩,
              ⟨none, ["1", "7"], some "$5"⟩] = none :=
  (parseRow_requires_anchor _ _).1 (Or.inl rfl)

end Lottery

namespace Lottery

theorem daysInMonth_le (y m : Nat) : daysInMonth y m ≤ 31 := by
  rw [daysInMonth]
  split
  · split <;> omega
  · split <;> omega

theorem strptime_after_month (mo : Nat) (input : List Char) (dh : Char)
    (dt2 ys : List Char)
    (hmatch : matchMonth input = some (mo, ' ' :: dh :: (dt2 ++ ' ' :: ys)))
    (hdsd : ∀ c ∈ dh :: dt2, c.isDigit = true)
    (hds2 : (dh :: dt2).length ≤ 2)
    (hys4 : ys.length = 4)
    (hysd : ∀ c ∈ ys, c.isDigit = true)
    (hd1 : 1 ≤ natOfDigits (dh :: dt2))
    (hdm : natOfDigits (dh :: dt2) ≤ daysInMonth (natOfDigits ys) mo)
    (hy1 : 1 ≤ natOfDigits ys) :
    strptimeBdY input = some ⟨natOfDigits ys, mo, natOfDigits (dh :: dt2)⟩ := by
  have hysne : ys ≠ [] := by
    intro hnil
    rw [hnil] at hys4
    simp at hys4
  obtain ⟨yh, yt, rfl⟩ := List.exists_cons_of_ne_nil hysne
  have hyh : yh.isDigit = true := hysd yh (by simp)
  have hdh : dh.isDigit = true := hdsd dh (by simp)
  have hdrop1 : (dh :: (dt2 ++ ' ' :: yh :: yt)).dropWhile (·.isWhitespace)
      = dh :: (dt2 ++ ' ' :: yh :: yt) := by
    rw [List.dropWhile_cons]
    simp [digit_not_ws hdh]
  have htake_d : (dh :: (dt2 ++ ' ' :: yh :: yt)).takeWhile (·.isDigit)
      = dh :: dt2 := by
    have h1 := takeWhile_append_pred (·.isDigit) (dh :: dt2) hdsd (' ' :: yh :: yt)
    rw [List.cons_append] at h1
    rw [h1, List.takeWhile_cons]
    simp
  have hdrop_d : (dh :: (dt2 ++ ' ' :: yh :: yt)).dropWhile (·.isDigit)
      = ' ' :: yh :: yt := by
    have h1 := dropWhile_append_pred (·.isDigit) (dh :: dt2) hdsd (' ' :: yh :: yt)
    rw [List.cons_append] at h1
    rw [h1, List.dropWhile_cons]
    simp
  have hdrop2 : (yh :: yt).dropWhile (·.isWhitespace) = yh :: yt := by
    rw [List.dropWhile_cons]
    simp [digit_not_ws hyh]
  have htake_y : (yh :: yt).takeWhile (·.isDigit) = yh :: yt := by
    have h1 := takeWhile_append_pred (·.isDigit) (yh :: yt) hysd []
    simpa using h1
  have hdrop_y : (yh :: yt).dropWhile (·.isDigit) = [] := by
    have h1 := dropWhile_append_pred (·.isDigit) (yh :: yt) hysd []
    simpa using h1
  have he1 : eatWs (' ' :: dh :: (dt2 ++ ' ' :: yh :: yt))
      = some (dh :: (dt2 ++ ' ' :: yh :: yt)) := by
    rw [show eatWs (' ' :: dh :: (dt2 ++ ' ' :: yh :: yt))
        = some ((dh :: (dt2 ++ ' ' :: yh :: yt)).dropWhile (·.isWhitespace)) from rfl,
      hdrop1]
  have he2 : eatWs (' ' :: yh :: yt) = some (yh :: yt) := by
    rw [show eatWs (' ' :: yh :: yt)
        = some ((yh :: yt).dropWhile (·.isWhitespace)) from rfl, hdrop2]
  rw [strptimeBdY]
  simp only [hmatch]
  simp only [he1]
  simp only [htake_d, hdrop_d]
  rw [if_neg (by simp)]
  rw [if_neg (by omega)]
  rw [if_neg (by omega)]
  rw [if_neg (by
    have := daysInMonth_le (natOfDigits (yh :: yt)) mo
    omega)]
  simp only [he2]
  simp only [htake_y, hdrop_y]
  rw [if_neg (by omega)]
  rw [if_neg (by simp)]
  rw [if_neg (by omega)]
  rw [if_neg (by omega)]

theorem strptime_tokens (md : List Char) (hm : md ∈ monthNames)
    (ds ys : List Char)
    (hds1 : ds ≠ []) (hds2 : ds.length ≤ 2)
    (hdsd : ∀ c ∈ ds, c.isDigit = true)
    (hys4 : ys.length = 4) (hysd : ∀ c ∈ ys, c.isDigit = true)
    (hd1 : 1 ≤ natOfDigits ds)
    (hdm : natOfDigits ds ≤ daysInMonth (natOfDigits ys) (monthNum md))
    (hy1 : 1 ≤ natOfDigits ys) :
    strptimeBdY (md ++ ' ' :: ds ++ ' ' :: ys)
      = some ⟨natOfDigits ys, monthNum md, natOfDigits ds⟩ := by
  obtain ⟨dh, dt2, rfl⟩ := List.exists_cons_of_ne_nil hds1
  simp only [monthNames, List.mem_cons, List.not_mem_nil, or_false] at hm
  rcases hm with h | h | h | h | h | h | h | h | h | h | h | h <;> subst h <;>
    exact strptime_after_month _ _ dh dt2 ys rfl hdsd hds2 hys4 hysd hd1 hdm hy1

end Lottery

namespace Lottery

theorem month_chars :
    ∀ md ∈ monthNames, md ≠ [] ∧
      ∀ c ∈ md, c.isWhitespace = false ∧ c.isDigit = false := by decide

/-- C1: for a first-cell anchor label of the form
`"<Weekday> <Month> <Day><ordinal-suffix> <Year>"` denoting a real calendar
date — weekday an arbitrary whitespace-free token, month a full English
month name, day a 1-2 digit number valid for that month, suffix one of
`st`/`nd`/`rd`/`th`, year four digits — the parser's extracted date is
exactly the date the label denotes: the weekday is dropped, the ordinal
suffix is stripped, and the rest parses as `"%B %d %Y"`. -/
theorem rowDate_wellformed_label (w m ds suf ys : String) (balls : List String)
    (st : Option String)
    (hw1 : w.data ≠ []) (hw2 : ∀ c ∈ w.data, c.isWhitespace = false)
    (hm : m.data ∈ monthNames)
    (hsuf : suf = "st" ∨ suf = "nd" ∨ suf = "rd" ∨ suf = "th")
    (hds1 : ds.data ≠ []) (hds2 : ds.data.length ≤ 2)
    (hdsd : ∀ c ∈ ds.data, c.isDigit = true)
    (hys4 : ys.data.length = 4) (hysd : ∀ c ∈ ys.data, c.isDigit = true)
    (hd1 : 1 ≤ natOfDigits ds.data)
    (hdm : natOfDigits ds.data
      ≤ daysInMonth (natOfDigits ys.data) (monthNum m.data))
    (hy1 : 1 ≤ natOfDigits ys.data) :
    rowDate ⟨some (w ++ " " ++ m ++ " " ++ ds ++ suf ++ " " ++ ys), balls, st⟩
      = some ⟨natOfDigits ys.data, monthNum m.data, natOfDigits ds.data⟩ := by
  obtain ⟨hmne, hmch⟩ := month_chars m.data hm
  have hsufd : suf.data = ['s', 't'] ∨ suf.data = ['n', 'd'] ∨
      suf.data = ['r', 'd'] ∨ suf.data = ['t', 'h'] := by
    rcases hsuf with rfl | rfl | rfl | rfl
    · exact Or.inl rfl
    · exact Or.inr (Or.inl rfl)
    · exact Or.inr (Or.inr (Or.inl rfl))
    · exact Or.inr (Or.inr (Or.inr rfl))
  have hdata : (w ++ " " ++ m ++ " " ++ ds ++ suf ++ " " ++ ys).data
      = w.data ++ ' ' :: (m.data ++ ' ' :: ((ds.data ++ suf.data) ++ ' ' :: ys.data)) := by
    simp only [String.data_append]
    simp [List.append_assoc]
  have hsufws : ∀ c ∈ suf.data, c.isWhitespace = false := by
    rcases hsufd with h | h | h | h <;> rw [h] <;> decide
  have hsplit : splitWs ((w ++ " " ++ m ++ " " ++ ds ++ suf ++ " " ++ ys).data)
      = [w.data, m.data, ds.data ++ suf.data, ys.data] := by
    rw [hdata]
    rw [splitWs_token_sep w.data _ hw1 hw2]
    rw [splitWs_token_sep m.data _ hmne (fun c hc => (hmch c hc).1)]
    rw [splitWs_token_sep (ds.data ++ suf.data) _
      (by
        intro hx
        rw [List.append_eq_nil] at hx
        exact hds1 hx.1)
      (by
        intro c hc
        rcases List.mem_append.mp hc with hc | hc
        · exact digit_not_ws (hdsd c hc)
        · exact hsufws c hc)]
    rw [splitWs_token_last ys.data
      (by
        intro hx
        rw [hx] at hys4
        simp at hys4)
      (fun c hc => digit_not_ws (hysd c hc))]
  have hstrip : stripOrdinals (m.data ++ ' ' :: ((ds.data ++ suf.data) ++ ' ' :: ys.data))
      = m.data ++ ' ' :: (ds.data ++ ' ' :: ys.data) := by
    have hnd : ∀ c ∈ m.data ++ [' '], c.isDigit = false := by
      intro c hc
      rcases List.mem_append.mp hc with hc | hc
      · exact (hmch c hc).2
      · simp only [List.mem_singleton] at hc
        subst hc
        decide
    have h1 := stripOrdinals_nondigit (m.data ++ [' ']) hnd
      ((ds.data ++ suf.data) ++ ' ' :: ys.data)
    have h2 : stripOrdinals ((ds.data ++ suf.data) ++ ' ' :: ys.data)
        = ds.data ++ ' ' :: ys.data := by
      have hinner : stripOrdinals (' ' :: ys.data) = ' ' :: ys.data := by
        rw [stripOrdinals_cons_nondigit ' ' (by decide) ys.data,
          stripOrdinals_digits_id ys.data hysd]
      rcases hsufd with h | h | h | h <;> rw [h, List.append_assoc] <;>
        rw [show ∀ (x y : Char) (r : List Char), [x, y] ++ r = x :: y :: r
          from fun x y r => rfl] <;>
        rw [stripOrdinals_digits_suffix ds.data hds1 hdsd _ _ (by decide) (' ' :: ys.data)] <;>
        rw [hinner]
    calc stripOrdinals (m.data ++ ' ' :: ((ds.data ++ suf.data) ++ ' ' :: ys.data))
        = stripOrdinals ((m.data ++ [' ']) ++ ((ds.data ++ suf.data) ++ ' ' :: ys.data)) := by
          simp [List.append_assoc]
      _ = (m.data ++ [' ']) ++ stripOrdinals ((ds.data ++ suf.data) ++ ' ' :: ys.data) := h1
      _ = m.data ++ ' ' :: (ds.data ++ ' ' :: ys.data) := by
          rw [h2]
          simp [List.append_assoc]
  have hne : (w ++ " " ++ m ++ " " ++ ds ++ suf ++ " " ++ ys).data.isEmpty = false := by
    rw [hdata, List.isEmpty_eq_false]
    intro hx
    rw [List.append_eq_nil] at hx
    exact hw1 hx.1
  rw [rowDate]
  simp only [hne]
  rw [if_neg (by simp)]
  rw [extractDate]
  rw [hsplit]
  rw [if_neg (by simp)]
  rw [show ([w.data, m.data, ds.data ++ suf.data, ys.data]).tail
    = [m.data, ds.data ++ suf.data, ys.data] from rfl]
  rw [show joinSpace [m.data, ds.data ++ suf.data, ys.data]
    = m.data ++ ' ' :: ((ds.data ++ suf.data) ++ ' ' :: ys.data) from rfl]
  rw [hstrip]
  have hfin := strptime_tokens m.data hm ds.data ys.data hds1 hds2 hdsd hys4 hysd hd1 hdm hy1
  have heq : (m.data ++ ' ' :: ds.data ++ ' ' :: ys.data : List Char)
      = m.data ++ ' ' :: (ds.data ++ ' ' :: ys.data) := by
    simp [List.append_assoc]
  rw [heq] at hfin
  exact hfin

theorem rowDate_wellformed_label_witness :
    rowDate ⟨some "Friday May 30th 2025", [], none⟩ = some ⟨2025, 5, 30⟩ :=
  rowDate_wellformed_label "Friday" "May" "30" "th" "2025" [] none
    (by decide) (by decide) (by decide) (Or.inr (Or.inr (Or.inr rfl)))
    (by decide) (by decide) (by decide) (by decide) (by decide) (by decide)
    (by decide) (by decide)

end Lottery
